import Mathlib

/-!
Verification of the rule-matching and metadata-merge engine of the
backlink metadata updater plugin (src/src/engine/rule-engine.ts and the
BacklinkProcessor in the same file, together with src/src/types.ts).

The TypeScript code is shallowly embedded: JavaScript values that can
appear in a frontmatter field are the inductive type `FmValue`
(`undef` is JS `undefined`, `null` is JS `null`); fallible operations
(those that can raise a JS exception, such as `new RegExp` on a
malformed pattern or `.push` on a non-array) return `Except String`.
JS `new Date(v).getTime()` is treated as an external primitive: the
merge engine takes a parameter `jsDate : FmValue → Option Int` (`none`
models `NaN`, i.e. an invalid date); `jsDateIso` is the concrete
instance for the plugin's own `YYYY-MM-DD` date-string domain.
-/

deriving instance DecidableEq for Except

namespace BacklinkPlugin

/-- A JavaScript value stored in a frontmatter field, as used by the
plugin: `undef`/`null` for the two JS absence values, strings, the
`{date, title, source}` object produced for `date_and_title`, the
`{field, value, timestamp, sourceContext}` history record, and arrays. -/
inductive FmValue where
  | undef : FmValue
  | null : FmValue
  | str (s : String) : FmValue
  | obj (date title source : String) : FmValue
  | histRec (field : String) (value : FmValue) (timestamp : String) (sourceContext : String) : FmValue
  | arr (elems : List FmValue) : FmValue

mutual

/-- Structural (value) equality on `FmValue`.  This is how JS `===`
and `Array.prototype.includes` compare the values the engine actually
feeds them: the candidate in every comparison the code performs is a
string, and `===` on strings is value equality. -/
def fmBeq : FmValue → FmValue → Bool
  | .undef, .undef => true
  | .null, .null => true
  | .str s1, .str s2 => s1 == s2
  | .obj d1 t1 s1, .obj d2 t2 s2 => d1 == d2 && t1 == t2 && s1 == s2
  | .histRec f1 v1 ts1 sc1, .histRec f2 v2 ts2 sc2 =>
      f1 == f2 && fmBeq v1 v2 && ts1 == ts2 && sc1 == sc2
  | .arr l1, .arr l2 => fmBeqList l1 l2
  | _, _ => false

/-- Elementwise `fmBeq` on lists. -/
def fmBeqList : List FmValue → List FmValue → Bool
  | [], [] => true
  | a :: as, b :: bs => fmBeq a b && fmBeqList as bs
  | _, _ => false

end

mutual

theorem fmBeq_refl : ∀ a : FmValue, fmBeq a a = true
  | .undef => rfl
  | .null => rfl
  | .str s => by simp [fmBeq]
  | .obj d t s => by simp [fmBeq]
  | .histRec f v ts sc => by simp [fmBeq, fmBeq_refl v]
  | .arr l => by simp [fmBeq, fmBeqList_refl l]

theorem fmBeqList_refl : ∀ l : List FmValue, fmBeqList l l = true
  | [] => rfl
  | a :: as => by simp [fmBeqList, fmBeq_refl a, fmBeqList_refl as]

end

mutual

theorem fmBeq_eq : ∀ a b : FmValue, fmBeq a b = true → a = b
  | .undef, .undef, _ => rfl
  | .undef, .null, h => by simp [fmBeq] at h
  | .undef, .str _, h => by simp [fmBeq] at h
  | .undef, .obj _ _ _, h => by simp [fmBeq] at h
  | .undef, .histRec _ _ _ _, h => by simp [fmBeq] at h
  | .undef, .arr _, h => by simp [fmBeq] at h
  | .null, .undef, h => by simp [fmBeq] at h
  | .null, .null, _ => rfl
  | .null, .str _, h => by simp [fmBeq] at h
  | .null, .obj _ _ _, h => by simp [fmBeq] at h
  | .null, .histRec _ _ _ _, h => by simp [fmBeq] at h
  | .null, .arr _, h => by simp [fmBeq] at h
  | .str _, .undef, h => by simp [fmBeq] at h
  | .str _, .null, h => by simp [fmBeq] at h
  | .str s1, .str s2, h => by simp [fmBeq] at h; simp [h]
  | .str _, .obj _ _ _, h => by simp [fmBeq] at h
  | .str _, .histRec _ _ _ _, h => by simp [fmBeq] at h
  | .str _, .arr _, h => by simp [fmBeq] at h
  | .obj _ _ _, .undef, h => by simp [fmBeq] at h
  | .obj _ _ _, .null, h => by simp [fmBeq] at h
  | .obj _ _ _, .str _, h => by simp [fmBeq] at h
  | .obj d1 t1 s1, .obj d2 t2 s2, h => by simp [fmBeq] at h; simp [h.1.1, h.1.2, h.2]
  | .obj _ _ _, .histRec _ _ _ _, h => by simp [fmBeq] at h
  | .obj _ _ _, .arr _, h => by simp [fmBeq] at h
  | .histRec _ _ _ _, .undef, h => by simp [fmBeq] at h
  | .histRec _ _ _ _, .null, h => by simp [fmBeq] at h
  | .histRec _ _ _ _, .str _, h => by simp [fmBeq] at h
  | .histRec _ _ _ _, .obj _ _ _, h => by simp [fmBeq] at h
  | .histRec f1 v1 ts1 sc1, .histRec f2 v2 ts2 sc2, h => by
      simp [fmBeq] at h
      have hv := fmBeq_eq v1 v2 h.1.1.2
      simp [h.1.1.1, hv, h.1.2, h.2]
  | .histRec _ _ _ _, .arr _, h => by simp [fmBeq] at h
  | .arr _, .undef, h => by simp [fmBeq] at h
  | .arr _, .null, h => by simp [fmBeq] at h
  | .arr _, .str _, h => by simp [fmBeq] at h
  | .arr _, .obj _ _ _, h => by simp [fmBeq] at h
  | .arr _, .histRec _ _ _ _, h => by simp [fmBeq] at h
  | .arr l1, .arr l2, h => by
      simp [fmBeq] at h
      have := fmBeqList_eq l1 l2 h
      simp [this]

theorem fmBeqList_eq : ∀ l1 l2 : List FmValue, fmBeqList l1 l2 = true → l1 = l2
  | [], [], _ => rfl
  | [], _ :: _, h => by simp [fmBeqList] at h
  | _ :: _, [], h => by simp [fmBeqList] at h
  | a :: as, b :: bs, h => by
      simp [fmBeqList] at h
      have h1 := fmBeq_eq a b h.1
      have h2 := fmBeqList_eq as bs h.2
      simp [h1, h2]

end

instance : DecidableEq FmValue := fun a b =>
  if h : fmBeq a b = true then isTrue (fmBeq_eq a b h)
  else isFalse (fun he => h (he ▸ fmBeq_refl a))

/-- JS truthiness of an `FmValue`: `undefined`, `null` and `""` are
falsy; non-empty strings, objects and arrays (including `[]`) are truthy. -/
def jsTruthy : FmValue → Bool
  | .undef => false
  | .null => false
  | .str s => !(s == "")
  | .obj _ _ _ => true
  | .histRec _ _ _ _ => true
  | .arr _ => true

/-- `ValueType` from src/src/types.ts. -/
inductive ValueType where
  | date
  | date_and_title
  | append_link
  | append_unique_link
  | replace_link
  | custom
deriving DecidableEq

/-- `PluginOptions` from src/src/types.ts. -/
structure PluginOptions where
  preserveHistory : Bool
  updateOnDelete : Bool
  dateFormat : String
  debounceMs : Nat
  enableLogging : Bool
deriving DecidableEq

/-- The `options` record of `DEFAULT_SETTINGS` in src/src/types.ts. -/
def defaultOptions : PluginOptions :=
  { preserveHistory := true
    updateOnDelete := false
    dateFormat := "YYYY-MM-DD"
    debounceMs := 1000
    enableLogging := false }

/-- `Rule` from src/src/types.ts.  `targetTag`/`targetFolder` are
optional (`none` models the property being absent).  `preserveHistory`
is the optional rule-level flag read by `updateTargetFileMetadata`
(`context.rule.preserveHistory`); `none` models `undefined`. -/
structure Rule where
  id : String
  name : String
  sourcePattern : String
  targetTag : Option String := none
  targetFolder : Option String := none
  updateField : String
  valueType : ValueType
  priority : Int
  enabled : Bool
  preserveHistory : Option Bool := none
deriving DecidableEq

/-- The part of an Obsidian `TFile` read by `matchesSourcePattern`:
its path and its parent folder's path (`sourceFile.parent?.path`,
`none` when there is no parent). -/
structure SFile where
  path : String
  parent : Option String
deriving DecidableEq

/-- The part of the Obsidian metadata cache read by `fileHasTag`:
the frontmatter `tags` entry (normalized to a list; the code wraps a
scalar tag into a one-element array; `none` models the entry being
absent or falsy) and the inline tag annotations. -/
structure FileCache where
  frontmatterTags : Option (List String)
  inlineTags : Option (List String)
deriving DecidableEq

/-- The part of an Obsidian target `TFile` read by
`matchesTargetCriteria`: its path and its metadata cache (`none` when
`getFileCache` returns nothing). -/
structure TargetFile where
  path : String
  cache : Option FileCache
deriving DecidableEq

/-! ### Glob pattern matching (`RuleEngine.matchesGlobPattern`)

The source translates the glob pattern to a regex by escaping `/` and
`.`, replacing `*` with `.*` and `?` with `.`, and appending `$`; it
then calls `new RegExp(...).test(path)`.  The translated regex is a
sequence of literal characters, single-character wildcards and `.*`
wildcards, end-anchored by the final `$` and (since `test` searches
every start position and no `^` is emitted) not start-anchored.

Characters that are regex metacharacters and are passed through
unescaped by the translation (`(`, `)`, `[`, `]`, braces, `+`, `^`,
`$`, `|`, `\`) are outside the modelled literal fragment:
`compileGlobRegex` returns `none` for them, modelling the fact that
the constructed regex is not the plain literal/wildcard pattern of
this model — for `(` the JS `new RegExp` call genuinely throws a
`SyntaxError`, which `Except.error` models.  Every theorem about a
well-formed pattern only uses patterns inside the literal fragment,
where the model coincides with the JS semantics. -/

/-- One token of the translated regex. -/
inductive GlobTok where
  | lit (c : Char) : GlobTok
  | anyOne : GlobTok
  | anyStar : GlobTok
deriving DecidableEq

/-- JS line terminators, which `.` and `.*` do not match. -/
def isLineTerm (c : Char) : Bool :=
  c = '\n' || c = '\r' || c = '\u2028' || c = '\u2029'

/-- Raw regex metacharacters that the glob translation passes through
unescaped; patterns containing them are outside the literal fragment
modelled here. -/
def rawMetaChars : List Char :=
  ['(', ')', '[', ']', '\x7b', '\x7d', '+', '^', '$', '|', '\\']

/-- Translate one pattern character, following the replacement chain in
`matchesGlobPattern` (`*` → `.*`, `?` → `.`, `/` and `.` escaped to
literals, anything else left as written). -/
def globTok (c : Char) : Option GlobTok :=
  if c = '*' then some .anyStar
  else if c = '?' then some .anyOne
  else if rawMetaChars.contains c then none
  else some (.lit c)

/-- Translate a list of pattern characters; the first unsupported
character aborts. -/
def compileGlobChars : List Char → Option (List GlobTok)
  | [] => some []
  | c :: cs =>
    match globTok c, compileGlobChars cs with
    | some t, some ts => some (t :: ts)
    | _, _ => none

/-- Translate a whole pattern; `none` when the pattern leaves the
modelled literal fragment (for `(` this is a real `SyntaxError` from
`new RegExp`). -/
def compileGlobRegex (pattern : String) : Option (List GlobTok) :=
  compileGlobChars pattern.data

/-- The suffixes of the input reachable by letting `.*` consume zero
or more non-line-terminator characters. -/
def starSuffixes : List Char → List (List Char)
  | [] => [[]]
  | d :: ds => (d :: ds) :: (if isLineTerm d then [] else starSuffixes ds)

/-- Backtracking matcher for the translated token list against a full
character list (the `$` anchor: a match must consume the whole input).
`.*` tries every reachable suffix of the remaining input. -/
def toksMatch : List GlobTok → List Char → Bool
  | [], ds => ds.isEmpty
  | .lit _ :: _, [] => false
  | .lit c :: ts, d :: ds => c == d && toksMatch ts ds
  | .anyOne :: _, [] => false
  | .anyOne :: ts, d :: ds => !isLineTerm d && toksMatch ts ds
  | .anyStar :: ts, ds => (starSuffixes ds).any fun rest => toksMatch ts rest

/-- `regex.test(path)` for an end-anchored regex: the regex may start
matching at any position of `path` but must reach the end. -/
def globTestEnd (toks : List GlobTok) (path : String) : Bool :=
  (List.range (path.data.length + 1)).any fun i => toksMatch toks (path.data.drop i)

/-- `RuleEngine.matchesGlobPattern` (rule-engine.ts lines 124-135):
translate the glob to an end-anchored regex and test the path.
`Except.error` models the `SyntaxError` thrown by `new RegExp` on a
malformed translated pattern. -/
def matchesGlobPattern (pattern path : String) : Except String Bool :=
  match compileGlobRegex pattern with
  | none => .error "SyntaxError: invalid regular expression"
  | some toks => .ok (globTestEnd toks path)

/-- `RuleEngine.matchesSourcePattern` (rule-engine.ts lines 25-50).
Note the source checks only `pattern.includes('*')` before taking the
glob path; a `?` without `*` falls through to the exact/folder/parent
checks. -/
def matchesSourcePattern (rule : Rule) (sourceFile : SFile) : Except String Bool :=
  let pattern := rule.sourcePattern
  -- pattern.includes('*')
  if pattern.data.contains '*' then
    matchesGlobPattern pattern sourceFile.path
  -- pattern === sourceFile.path
  else if pattern == sourceFile.path then
    .ok true
  -- pattern.endsWith('/') && sourceFile.path.startsWith(pattern)
  else if pattern.data.getLast? == some '/' && pattern.data.isPrefixOf sourceFile.path.data then
    .ok true
  else
    -- const parentPath = sourceFile.parent?.path || '';
    let parentPath := sourceFile.parent.getD ""
    if parentPath == pattern then .ok true else .ok false

/-- `RuleEngine.fileHasTag` (rule-engine.ts lines 78-119): strip a
leading `#` from the rule's tag, then look for it among the
frontmatter tags (exact equality) or the inline tags (bare or
`#`-prefixed). -/
def fileHasTag (file : TargetFile) (tag : String) : Bool :=
  match file.cache with
  | none => false
  | some cache =>
    -- tag.startsWith('#') ? tag.slice(1) : tag
    let cleanTag := if tag.data.head? == some '#' then String.mk (tag.data.drop 1) else tag
    let fmMatch :=
      match cache.frontmatterTags with
      | none => false
      | some ts => ts.any fun t => t == cleanTag
    let inlineMatch :=
      match cache.inlineTags with
      | none => false
      | some ts => ts.any fun t => t == "#" ++ cleanTag || t == cleanTag
    fmMatch || inlineMatch

/-- JS truthiness of an optional string property (`undefined` and `""`
are falsy). -/
def strOptTruthy : Option String → Bool
  | none => false
  | some s => !(s == "")

/-- `RuleEngine.matchesTargetCriteria` (rule-engine.ts lines 55-73):
target tag if (truthy-)set, else target folder if set, else match all. -/
def matchesTargetCriteria (rule : Rule) (targetFile : TargetFile) : Except String Bool :=
  if strOptTruthy rule.targetTag then
    .ok (fileHasTag targetFile (rule.targetTag.getD ""))
  else if strOptTruthy rule.targetFolder then
    matchesGlobPattern (rule.targetFolder.getD "") targetFile.path
  else
    .ok true

/-! ### Dates

`new Date(value).getTime()` is a JS runtime primitive.  The merge
engine below is parameterized by `jsDate : FmValue → Option Int`
(`none` models `NaN`, `some t` a valid timestamp), so every theorem
about the merge policy holds for every parse behavior.  `jsDateIso` is
the concrete instance on the plugin's own date domain: strict
`YYYY-MM-DD` strings (the format `extractDate` produces), mapped to an
order-isomorphic day ordinal; everything else is an invalid date. -/

def isLeapYear (y : Nat) : Bool :=
  (y % 4 == 0 && y % 100 != 0) || y % 400 == 0

def daysInMonth (y m : Nat) : Nat :=
  if m == 2 then (if isLeapYear y then 29 else 28)
  else if m == 4 || m == 6 || m == 9 || m == 11 then 30
  else 31

def digitVal (c : Char) : Nat := c.toNat - '0'.toNat

/-- Parse a strict `YYYY-MM-DD` calendar date into a day ordinal whose
order agrees with the date order (and hence with the JS timestamp
order on this domain). -/
def parseDateStr (s : String) : Option Nat :=
  match s.data with
  | [y1, y2, y3, y4, h1, m1, m2, h2, d1, d2] =>
    if h1 == '-' && h2 == '-' && [y1, y2, y3, y4, m1, m2, d1, d2].all Char.isDigit then
      let y := 1000 * digitVal y1 + 100 * digitVal y2 + 10 * digitVal y3 + digitVal y4
      let m := 10 * digitVal m1 + digitVal m2
      let d := 10 * digitVal d1 + digitVal d2
      if 1 ≤ m ∧ m ≤ 12 ∧ 1 ≤ d ∧ d ≤ daysInMonth y m then
        some (372 * y + 31 * (m - 1) + (d - 1))
      else none
    else none
  | _ => none

/-- `new Date(v).getTime()` on the plugin's date domain: only strict
`YYYY-MM-DD` strings are valid dates. -/
def jsDateIso (v : FmValue) : Option Int :=
  match v with
  | .str s => (parseDateStr s).map Int.ofNat
  | _ => none

/-- A falsy value is never a valid date under `jsDateIso`
(`new Date("")` is `Invalid Date`). -/
theorem jsDateIso_falsy : ∀ v : FmValue, jsTruthy v = false → jsDateIso v = none
  | .undef, _ => rfl
  | .null, _ => rfl
  | .str s, h => by
      simp [jsTruthy] at h
      subst h
      rfl
  | .obj _ _ _, h => by simp [jsTruthy] at h
  | .histRec _ _ _ _, h => by simp [jsTruthy] at h
  | .arr _, h => by simp [jsTruthy] at h

/-- `newDate > currentDate` in JS: comparisons involving `NaN`
(an invalid date) are `false`. -/
def jsDateGt (a b : Option Int) : Bool :=
  match a, b with
  | some x, some y => decide (y < x)
  | _, _ => false

/-! ### Merge engine (`BacklinkProcessor.mergeValues`, rule-engine.ts
lines 848-918, the current BacklinkProcessor) -/

/-- `BacklinkProcessor.mergeValues`.  The `options` parameter is
accepted and unused, as in the source. -/
def mergeValues (jsDate : FmValue → Option Int) (currentValue newValue : FmValue)
    (valueType : ValueType) (options : PluginOptions) : FmValue :=
  match valueType with
  | .date | .date_and_title =>
    -- For date fields, only update if the new date is more recent
    if jsTruthy currentValue && jsTruthy newValue then
      let currentDate := jsDate currentValue
      let newDate := jsDate newValue
      let currentValid := currentDate.isSome
      let newValid := newDate.isSome
      if !currentValid || !newValid || jsDateGt newDate currentDate then
        if newValid then newValue
        else if currentValid then currentValue
        else currentValue     -- both invalid: keep current
      else currentValue       -- existing date is at least as recent
    -- no (truthy) current value or no candidate: use candidate only if valid
    else if jsTruthy newValue && (jsDate newValue).isSome then newValue
    else currentValue
  | .append_link =>
    match currentValue with
    | .undef => .arr [newValue]
    | .arr elems => .arr (elems ++ [newValue])
    | _ => .arr [currentValue, newValue]
  | .append_unique_link =>
    match currentValue with
    | .undef => .arr [newValue]
    | .arr elems => if newValue ∈ elems then .arr elems else .arr (elems ++ [newValue])
    | _ => if currentValue = newValue then .arr [currentValue] else .arr [currentValue, newValue]
  | .replace_link => newValue
  | .custom => newValue       -- default branch of the switch

/-! ### Frontmatter and history -/

/-- The structured metadata block of a target document: an ordered
association list of fields (JS object property table). -/
abbrev Frontmatter := List (String × FmValue)

/-- `frontMatter[k]`: reading an absent property yields `undefined`. -/
def fmGet : Frontmatter → String → FmValue
  | [], _ => .undef
  | (k', v) :: rest, k => if k' == k then v else fmGet rest k

/-- `frontMatter[k] = v`: overwrite the first binding of `k`, or append
a new binding. -/
def fmSet : Frontmatter → String → FmValue → Frontmatter
  | [], k, v => [(k, v)]
  | (k', v') :: rest, k, v =>
      if k' == k then (k, v) :: rest else (k', v') :: fmSet rest k v

/-- The derived history field name (`BacklinkProcessor.addToHistory`,
rule-engine.ts lines 923-932): `lastWatched` → `watchHistory`,
`lastRead` → `readHistory`, anything else → `<field>History`. -/
def histFieldName (field : String) : String :=
  if field == "lastWatched" then "watchHistory"
  else if field == "lastRead" then "readHistory"
  else field ++ "History"

/-- `BacklinkProcessor.addToHistory` (rule-engine.ts lines 923-967).
A falsy history slot is re-initialized to `[]`.  For the two shortcut
fields the entry is the bare value and is deduplicated with
`includes`; for every other field the entry is the
`{field, value, timestamp, sourceContext}` record, appended
unconditionally.  `timestamp` is `new Date().toISOString()`, passed in
explicitly here.  A truthy non-array history slot makes the JS
`.push` call throw a `TypeError`, modelled as `Except.error` (for the
shortcut fields JS would first call `String.prototype.includes`, whose
substring semantics can skip the failing push; that corner is outside
this model and outside every theorem below). -/
def addToHistory (fm : Frontmatter) (field : String) (value : FmValue)
    (sourcePath timestamp : String) : Except String Frontmatter :=
  let historyField := histFieldName field
  let cur := fmGet fm historyField
  let init : Except String (List FmValue) :=
    if !jsTruthy cur then .ok []
    else match cur with
      | .arr elems => .ok elems
      | _ => .error "TypeError: push is not a function"
  match init with
  | .error e => .error e
  | .ok elems =>
    if field == "lastWatched" || field == "lastRead" then
      .ok (fmSet fm historyField (.arr (if value ∈ elems then elems else elems ++ [value])))
    else
      .ok (fmSet fm historyField (.arr (elems ++ [.histRec field value timestamp sourcePath])))

/-- `BacklinkProcessor.updateTargetFileMetadata` (rule-engine.ts lines
815-843, the current BacklinkProcessor): compute the merged value from
the current field value, append a history entry when the (rule-level,
else global) history flag is set and the candidate is neither `null`
nor `undefined` — independently of the merge result — then write the
merged value unless it is `undefined`. -/
def updateTargetFileMetadata (jsDate : FmValue → Option Int) (fm : Frontmatter)
    (field : String) (value : FmValue) (rule : Rule)
    (sourcePath timestamp : String) (options : PluginOptions) :
    Except String Frontmatter :=
  let currentValue := fmGet fm field
  let newValue := mergeValues jsDate currentValue value rule.valueType options
  let shouldPreserveHistory :=
    match rule.preserveHistory with
    | some b => b
    | none => options.preserveHistory
  match (if shouldPreserveHistory = true ∧ value ≠ FmValue.null ∧ value ≠ FmValue.undef
         then addToHistory fm field value sourcePath timestamp
         else .ok fm) with
  | .error e => .error e
  | .ok fm1 => .ok (if newValue = FmValue.undef then fm1 else fmSet fm1 field newValue)

/-! ### Rule selection (`RuleEngine.findApplicableRules`) -/

/-- Does an `Except`-valued matcher succeed with `true`? -/
def exOkTrue (e : Except String Bool) : Bool :=
  match e with
  | .ok true => true
  | _ => false

/-- Does an `Except`-valued matcher succeed at all? -/
def exIsOk (e : Except String Bool) : Bool :=
  match e with
  | .ok _ => true
  | .error _ => false

/-- `Array.prototype.filter` with a predicate that can throw: the
first exception aborts the whole call. -/
def filterExcept {α : Type} (p : α → Except String Bool) : List α → Except String (List α)
  | [] => .ok []
  | a :: as =>
    match p a with
    | .error e => .error e
    | .ok b =>
      match filterExcept p as with
      | .error e => .error e
      | .ok rest => .ok (if b then a :: rest else rest)

/-- The comparator `(a, b) => a.priority - b.priority`: ascending
priority. -/
def priorityLE (a b : Rule) : Prop := a.priority ≤ b.priority

instance : DecidableRel priorityLE :=
  fun a b => inferInstanceAs (Decidable (a.priority ≤ b.priority))

instance : IsTotal Rule priorityLE :=
  ⟨fun a b => Int.le_total a.priority b.priority⟩

instance : IsTrans Rule priorityLE :=
  ⟨fun _ _ _ h1 h2 => le_trans h1 h2⟩

/-- `Array.prototype.sort` with a consistent comparator is the stable
ascending sort (ES2019); insertion sort computes exactly that
permutation. -/
def sortByPriority (l : List Rule) : List Rule := List.insertionSort priorityLE l

/-- `RuleEngine.findApplicableRules` (rule-engine.ts lines 14-20):
filter to enabled rules, then by source pattern, then by target
criteria, then sort ascending by priority. -/
def findApplicableRules (sourceFile : SFile) (targetFile : TargetFile)
    (rules : List Rule) : Except String (List Rule) :=
  match filterExcept (fun r => matchesSourcePattern r sourceFile)
      (rules.filter fun r => r.enabled) with
  | .error e => .error e
  | .ok srcRules =>
    match filterExcept (fun r => matchesTargetCriteria r targetFile) srcRules with
    | .error e => .error e
    | .ok tgtRules => .ok (sortByPriority tgtRules)

/-- The combined applicability predicate: enabled, source pattern
matches, target criteria match. -/
def ruleApplies (sourceFile : SFile) (targetFile : TargetFile) (r : Rule) : Bool :=
  r.enabled && exOkTrue (matchesSourcePattern r sourceFile)
    && exOkTrue (matchesTargetCriteria r targetFile)

/-! ### Validation (`RuleEngine.validateRule` / `validateRuleSet`) -/

/-- `ValidationResult` from src/src/types.ts. -/
structure ValidationResult where
  isValid : Bool
  errors : List String
  warnings : List String
deriving DecidableEq

def isIdentStart (c : Char) : Bool :=
  ('a' ≤ c && c ≤ 'z') || ('A' ≤ c && c ≤ 'Z') || c == '_'

def isIdentChar (c : Char) : Bool :=
  isIdentStart c || ('0' ≤ c && c ≤ '9')

/-- The regex `^[a-zA-Z_][a-zA-Z0-9_]*$` used for `updateField`. -/
def isValidFieldName (s : String) : Bool :=
  match s.data with
  | [] => false
  | c :: cs => isIdentStart c && cs.all isIdentChar

/-- `RuleEngine.validateRule` (rule-engine.ts lines 140-199).  The
`try { matchesGlobPattern(...) } catch` blocks are the `Except.error`
branches. -/
def validateRule (rule : Rule) : ValidationResult :=
  let errors :=
    (if rule.id == "" then ["Rule ID is required"] else []) ++
    (if rule.name == "" then ["Rule name is required"] else []) ++
    (if rule.sourcePattern == "" then ["Source pattern is required"] else []) ++
    (if rule.updateField == "" then ["Update field is required"] else []) ++
    (if rule.sourcePattern != "" then
       match matchesGlobPattern rule.sourcePattern "test/path" with
       | .error e => ["Invalid source pattern: " ++ e]
       | .ok _ => []
     else []) ++
    (if strOptTruthy rule.targetFolder then
       match matchesGlobPattern (rule.targetFolder.getD "") "test/path" with
       | .error e => ["Invalid target folder pattern: " ++ e]
       | .ok _ => []
     else []) ++
    (if rule.updateField != "" && !isValidFieldName rule.updateField then
       ["Update field must be a valid identifier (letters, numbers, underscore)"]
     else []) ++
    (if rule.priority < 0 then ["Priority must be non-negative"] else [])
  let warnings :=
    if !strOptTruthy rule.targetTag && !strOptTruthy rule.targetFolder then
      ["No target criteria specified - rule will apply to all linked files"]
    else []
  { isValid := errors.length == 0, errors := errors, warnings := warnings }

/-- `RuleEngine.rulesConflict` (rule-engine.ts lines 240-257): same
source pattern, same target criteria, same update field. -/
def rulesConflict (rule1 rule2 : Rule) : Bool :=
  if rule1.sourcePattern ≠ rule2.sourcePattern then false
  else if rule1.targetTag ≠ rule2.targetTag ∨ rule1.targetFolder ≠ rule2.targetFolder then false
  else if rule1.updateField ≠ rule2.updateField then false
  else true

/-- The warning text pushed for a conflicting pair. -/
def conflictMsg (rule1 rule2 : Rule) : String :=
  "Rules \"" ++ rule1.name ++ "\" and \"" ++ rule2.name ++
    "\" may conflict (same source pattern and target criteria)"

/-- The double loop over pairs `i < j` in `validateRuleSet`. -/
def conflictWarnings : List Rule → List String
  | [] => []
  | r :: rs =>
      ((rs.filter fun r2 => rulesConflict r r2).map fun r2 => conflictMsg r r2)
        ++ conflictWarnings rs

/-- `ids.filter((id, index) => ids.indexOf(id) !== index)`: the ids
whose first occurrence is at an earlier index. -/
def dupIds (rules : List Rule) : List String :=
  let ids := rules.map fun r => r.id
  (ids.enum.filter fun p => ids.indexOf p.2 ≠ p.1).map fun p => p.2

/-- `RuleEngine.validateRuleSet` (rule-engine.ts lines 204-235):
duplicate ids are errors, conflicting pairs are warnings, and the set
is valid iff there are no errors. -/
def validateRuleSet (rules : List Rule) : ValidationResult :=
  let duplicateIds := dupIds rules
  let errors :=
    if duplicateIds.length > 0 then
      ["Duplicate rule IDs found: " ++ String.intercalate ", " duplicateIds]
    else []
  let warnings := conflictWarnings rules
  { isValid := errors.length == 0, errors := errors, warnings := warnings }

/-! ## Concrete fixtures used by witnesses and counterexamples -/

/-- A rule whose source pattern contains `?` but no `*`. -/
def ruleQmark : Rule :=
  { id := "q", name := "Q", sourcePattern := "a?c",
    updateField := "f", valueType := .date, priority := 1, enabled := true }

/-- A rule whose source pattern contains an unescaped `(`; its
translated regex is malformed. -/
def ruleParen : Rule :=
  { id := "p", name := "P", sourcePattern := "(*",
    updateField := "f", valueType := .date, priority := 1, enabled := true }

/-- A glob-pattern rule matching daily notes. -/
def ruleStar : Rule :=
  { id := "s", name := "S", sourcePattern := "Daily Notes/*",
    targetTag := some "#movie", updateField := "lastWatched",
    valueType := .date, priority := 1, enabled := true }

/-! ## Small helper lemmas -/

theorem exOkTrue_iff (e : Except String Bool) : exOkTrue e = true ↔ e = .ok true := by
  cases e with
  | error e => simp [exOkTrue]
  | ok b => cases b <;> simp [exOkTrue]

theorem exIsOk_iff (e : Except String Bool) : exIsOk e = true ↔ ∃ b, e = .ok b := by
  cases e <;> simp [exIsOk]

/-! ## Claims -/

/-- C2 counterexample: the claim says the glob matcher returns `false`
for pattern `"Daily Notes/*"` on path `"Other/Daily Notes/x.md"`, but
the translated regex is only end-anchored and `regex.test` searches
every start position, so the path's suffix `"Daily Notes/x.md"`
matches and the matcher returns `true`. -/
theorem claim_C2_counterexample :
    matchesGlobPattern "Daily Notes/*" "Other/Daily Notes/x.md" = Except.ok true := by
  decide

/-- C2 (amended): the glob matcher on pattern `"Daily Notes/*"`
returns `true` for `"Daily Notes/2024-01-01.md"` and also returns
`true` for `"Other/Daily Notes/x.md"` — with only the end anchor, the
pattern matches any path containing a `"Daily Notes/"` segment whose
remainder runs to the end of the path. -/
theorem claim_C2 :
    matchesGlobPattern "Daily Notes/*" "Daily Notes/2024-01-01.md" = Except.ok true ∧
    matchesGlobPattern "Daily Notes/*" "Other/Daily Notes/x.md" = Except.ok true := by
  exact ⟨by decide, by decide⟩

/-- C10: when the `append_unique_link` merge receives a scalar current
value string-equal to the candidate, it returns the one-element array
`[currentValue]`, not the scalar unchanged — the representation is
promoted to a sequence, so the field value does change. -/
theorem claim_C10 (jsDate : FmValue → Option Int) (s : String) (options : PluginOptions) :
    mergeValues jsDate (.str s) (.str s) .append_unique_link options = .arr [.str s] ∧
    FmValue.arr [FmValue.str s] ≠ FmValue.str s := by
  constructor
  · simp [mergeValues]
  · intro h
    exact FmValue.noConfusion h

/-- C8 counterexample: the claim says any `*` or `?` triggers the
glob-translation path, but `matchesSourcePattern` only checks
`pattern.includes('*')`.  For pattern `"a?c"` (a `?` but no `*`) and
path `"abc"`, the glob matcher returns `true` while
`matchesSourcePattern` falls through to the exact/folder/parent checks
and returns `false`. -/
theorem claim_C8_counterexample :
    ("a?c" : String).data.contains '?' = true ∧
    matchesSourcePattern ruleQmark ⟨"abc", none⟩ = Except.ok false ∧
    matchesGlobPattern "a?c" "abc" = Except.ok true ∧
    matchesSourcePattern ruleQmark ⟨"abc", none⟩ ≠ matchesGlobPattern "a?c" "abc" := by
  refine ⟨by decide, by decide, by decide, ?_⟩
  decide

/-- C8 (amended): only a `*` in the source pattern triggers the
glob-to-regex translation path of `matchesSourcePattern`; for every
pattern containing `*` the result equals the glob matcher's result,
while a `?` alone falls through to the exact/folder-prefix/parent
checks. -/
theorem claim_C8 (rule : Rule) (file : SFile)
    (h : rule.sourcePattern.data.contains '*' = true) :
    matchesSourcePattern rule file = matchesGlobPattern rule.sourcePattern file.path := by
  have hm : '*' ∈ rule.sourcePattern.data := by simpa using h
  simp [matchesSourcePattern, hm]

/-- C8 witness: a concrete `*` pattern goes through the glob matcher. -/
theorem claim_C8_witness :
    matchesSourcePattern ruleStar ⟨"Daily Notes/2024-01-01.md", some "Daily Notes"⟩
      = matchesGlobPattern "Daily Notes/*" "Daily Notes/2024-01-01.md" :=
  claim_C8 ruleStar ⟨"Daily Notes/2024-01-01.md", some "Daily Notes"⟩ (by decide)

/-- C7 counterexample: the claim says no pattern can cause an
exception at match time, but `new RegExp` throws a `SyntaxError` at
match time for the translated form of pattern `"("` (and
`matchesSourcePattern` propagates it for the pattern `"(*"`, which
contains a `*` and therefore takes the glob path). -/
theorem claim_C7_counterexample :
    matchesGlobPattern "(" "test/path" = Except.error "SyntaxError: invalid regular expression" ∧
    matchesSourcePattern ruleParen ⟨"test/path", none⟩
      = Except.error "SyntaxError: invalid regular expression" := by
  exact ⟨by decide, by decide⟩

/-- Compilation of the translated glob regex succeeds on every pattern
free of raw regex metacharacters. -/
theorem compileGlobChars_ok : ∀ l : List Char,
    (∀ c ∈ l, rawMetaChars.contains c = false) → ∃ ts, compileGlobChars l = some ts
  | [], _ => ⟨[], rfl⟩
  | c :: cs, h => by
      obtain ⟨ts, hts⟩ := compileGlobChars_ok cs fun x hx => h x (List.mem_cons_of_mem _ hx)
      have hc := h c (List.mem_cons_self _ _)
      by_cases h1 : c = '*'
      · exact ⟨.anyStar :: ts, by simp [compileGlobChars, globTok, h1, hts]⟩
      · by_cases h2 : c = '?'
        · exact ⟨.anyOne :: ts, by simp [compileGlobChars, globTok, h1, h2, hts]⟩
        · have hc' : c ∉ rawMetaChars := by simpa using hc
          exact ⟨.lit c :: ts, by simp [compileGlobChars, globTok, h1, h2, hc', hts]⟩

/-- C7 (amended): the matchers return a boolean without throwing for
every pattern free of raw regex metacharacters, but a malformed
pattern (for example `"("`) does make the glob matcher throw at match
time; `validateRule` catches exactly that construction failure and
reports it as an `Invalid source pattern` error. -/
theorem claim_C7 :
    (∀ pattern path : String,
      (∀ c ∈ pattern.data, rawMetaChars.contains c = false) →
      ∃ b, matchesGlobPattern pattern path = Except.ok b) ∧
    (∀ (rule : Rule) (file : SFile),
      (∀ c ∈ rule.sourcePattern.data, rawMetaChars.contains c = false) →
      ∃ b, matchesSourcePattern rule file = Except.ok b) ∧
    (∀ (rule : Rule) (e : String),
      matchesGlobPattern rule.sourcePattern "test/path" = Except.error e →
      ("Invalid source pattern: " ++ e) ∈ (validateRule rule).errors) := by
  refine ⟨?_, ?_, ?_⟩
  · intro pattern path h
    obtain ⟨ts, hts⟩ := compileGlobChars_ok pattern.data h
    refine ⟨globTestEnd ts path, ?_⟩
    simp [matchesGlobPattern, compileGlobRegex, hts]
  · intro rule file h
    by_cases hstar : '*' ∈ rule.sourcePattern.data
    · obtain ⟨ts, hts⟩ := compileGlobChars_ok rule.sourcePattern.data h
      refine ⟨globTestEnd ts file.path, ?_⟩
      simp [matchesSourcePattern, hstar, matchesGlobPattern, compileGlobRegex, hts]
    · have hcontains : rule.sourcePattern.data.contains '*' = false := by
        simpa using hstar
      simp only [matchesSourcePattern, hcontains, Bool.false_eq_true, if_false]
      split_ifs <;> exact ⟨_, rfl⟩
  · intro rule e h
    by_cases hsp : rule.sourcePattern = ""
    · rw [hsp] at h
      have hok : matchesGlobPattern "" "test/path" = Except.ok true := by decide
      rw [hok] at h
      simp at h
    · simp [validateRule, h, hsp]

/-- C7 witness: a concrete metacharacter-free pattern never throws. -/
theorem claim_C7_witness :
    ∃ b, matchesGlobPattern "Daily Notes/*" "Daily Notes/2024-01-01.md" = Except.ok b :=
  claim_C7.1 "Daily Notes/*" "Daily Notes/2024-01-01.md" (by decide)

/-- C5 counterexample: the claim's uniqueness statements are over any
starting value, but a starting array that already contains duplicates
keeps them: merging candidate `"[[A]]"` twice into
`["[[A]]", "[[A]]"]` returns the array unchanged, which still contains
two string-equal entries (two duplicates of the candidate). -/
theorem claim_C5_counterexample :
    mergeValues jsDateIso
        (mergeValues jsDateIso (.arr [.str "[[A]]", .str "[[A]]"]) (.str "[[A]]")
          .append_unique_link defaultOptions)
        (.str "[[A]]") .append_unique_link defaultOptions
      = .arr [.str "[[A]]", .str "[[A]]"] ∧
    ¬ ([FmValue.str "[[A]]", FmValue.str "[[A]]"] : List FmValue).Nodup ∧
    2 ≤ ([FmValue.str "[[A]]", FmValue.str "[[A]]"] : List FmValue).count (.str "[[A]]") := by
  refine ⟨by decide, by decide, by decide⟩

/-- C5 (amended): the `append_unique_link` merge with a string
candidate is idempotent — a second application with the same candidate
returns the first result unchanged, so the merge itself never
introduces a duplicate — and whenever the starting value contains no
duplicates (in particular whenever it is not an array), the result is
an array with no two equal entries in which the candidate occurs
exactly once.  Duplicates in the result can only come from duplicates
already present in the starting array. -/
theorem claim_C5 (jsDate : FmValue → Option Int) (s : String) (options : PluginOptions)
    (v : FmValue) :
    mergeValues jsDate (mergeValues jsDate v (.str s) .append_unique_link options) (.str s)
        .append_unique_link options
      = mergeValues jsDate v (.str s) .append_unique_link options ∧
    ((∀ l, v = FmValue.arr l → l.Nodup) →
      ∃ l', mergeValues jsDate v (.str s) .append_unique_link options = .arr l' ∧
        l'.Nodup ∧ l'.count (.str s) = 1) := by
  constructor
  · cases v with
    | arr l =>
      by_cases hmem : FmValue.str s ∈ l
      · simp [mergeValues, hmem]
      · simp [mergeValues, hmem]
    | undef => simp [mergeValues]
    | null => simp [mergeValues]
    | str t =>
      by_cases he : FmValue.str t = FmValue.str s
      · simp [mergeValues, he]
      · simp [mergeValues, he]
    | obj d t so => simp [mergeValues]
    | histRec f w ts sc => simp [mergeValues]
  · intro hnd
    cases v with
    | arr l =>
      have hl := hnd l rfl
      by_cases hmem : FmValue.str s ∈ l
      · exact ⟨l, by simp [mergeValues, hmem], hl, by
          rw [List.count_eq_one_of_mem hl hmem]⟩
      · refine ⟨l ++ [.str s], by simp [mergeValues, hmem], ?_, ?_⟩
        · simp [List.nodup_append, hl, hmem]
        · simp [List.count_append, List.count_eq_zero_of_not_mem hmem]
    | undef => exact ⟨[.str s], by simp [mergeValues], by simp, by simp⟩
    | null => exact ⟨[.null, .str s], by simp [mergeValues], by simp, by simp⟩
    | str t =>
      by_cases he : FmValue.str t = FmValue.str s
      · exact ⟨[.str t], by simp [mergeValues, he], by simp, by simp [he]⟩
      · exact ⟨[.str t, .str s], by simp [mergeValues, he], by simp [he], by
          simp [List.count_cons, he]⟩
    | obj d t so =>
      exact ⟨[.obj d t so, .str s], by simp [mergeValues], by simp, by simp⟩
    | histRec f w ts sc =>
      exact ⟨[.histRec f w ts sc, .str s], by simp [mergeValues], by simp, by simp⟩

/-- C5 witness: a clean starting array stays duplicate-free. -/
theorem claim_C5_witness :
    ∃ l', mergeValues jsDateIso (.arr [.str "[[B]]"]) (.str "[[A]]")
        .append_unique_link defaultOptions = .arr l' ∧
      l'.Nodup ∧ l'.count (.str "[[A]]") = 1 :=
  (claim_C5 jsDateIso "[[A]]" defaultOptions (.arr [.str "[[B]]"])).2
    (by intro l h; cases h; decide)

/-- C9: history entries go to the derived field `<field>History`,
except `lastWatched` → `watchHistory` and `lastRead` → `readHistory`;
for those two fields the entry is the bare value and is not appended
again when already present, while for every other field the entry is
the `{field, value, timestamp, sourceContext}` record, appended
unconditionally. -/
theorem claim_C9 (fm : Frontmatter) (value : FmValue) (sourcePath timestamp : String) :
    (histFieldName "lastWatched" = "watchHistory" ∧ histFieldName "lastRead" = "readHistory") ∧
    (∀ field, (field = "lastWatched" ∨ field = "lastRead") →
      ∀ l, fmGet fm (histFieldName field) = .arr l →
        addToHistory fm field value sourcePath timestamp =
          .ok (fmSet fm (histFieldName field)
            (.arr (if value ∈ l then l else l ++ [value])))) ∧
    (∀ field, field ≠ "lastWatched" → field ≠ "lastRead" →
      histFieldName field = field ++ "History" ∧
      (∀ l, fmGet fm (histFieldName field) = .arr l →
        addToHistory fm field value sourcePath timestamp =
          .ok (fmSet fm (histFieldName field)
            (.arr (l ++ [.histRec field value timestamp sourcePath]))))) := by
  refine ⟨⟨by decide, by decide⟩, ?_, ?_⟩
  · intro field hfield l hl
    rcases hfield with rfl | rfl <;>
      simp [addToHistory, hl, jsTruthy]
  · intro field h1 h2
    constructor
    · simp [histFieldName, h1, h2]
    · intro l hl
      simp [addToHistory, hl, jsTruthy, h1, h2]

/-- C9 witness: with `lastWatched` history enabled, a date already in
`watchHistory` is not appended again. -/
theorem claim_C9_witness :
    addToHistory [("watchHistory", FmValue.arr [FmValue.str "2024-01-01"])]
        "lastWatched" (FmValue.str "2024-01-01") "Daily Notes/x.md" "TS"
      = Except.ok [("watchHistory", FmValue.arr [FmValue.str "2024-01-01"])] := by
  have h := (claim_C9 [("watchHistory", FmValue.arr [FmValue.str "2024-01-01"])]
      (FmValue.str "2024-01-01") "Daily Notes/x.md" "TS").2.1
      "lastWatched" (Or.inl rfl) [FmValue.str "2024-01-01"] (by decide)
  exact h.trans (by decide)

/-- `rulesConflict` holds exactly when the four identity fields agree. -/
theorem rulesConflict_iff (r1 r2 : Rule) :
    rulesConflict r1 r2 = true ↔
      (r1.sourcePattern = r2.sourcePattern ∧ r1.targetTag = r2.targetTag ∧
       r1.targetFolder = r2.targetFolder ∧ r1.updateField = r2.updateField) := by
  unfold rulesConflict
  split_ifs with h1 h2 h3
  · simp only [Bool.false_eq_true, false_iff]
    tauto
  · simp only [Bool.false_eq_true, false_iff]
    tauto
  · simp only [Bool.false_eq_true, false_iff]
    tauto
  · rw [not_ne_iff] at h1 h3
    rcases not_or.mp h2 with ⟨h2a, h2b⟩
    rw [not_ne_iff] at h2a h2b
    simp [h1, h2a, h2b, h3]

/-- An ordered conflicting pair inside the rule list forces at least
one warning from the pairwise double loop. -/
theorem conflict_sublist : ∀ (rules : List Rule) (r1 r2 : Rule),
    List.Sublist [r1, r2] rules → rulesConflict r1 r2 = true →
    conflictWarnings rules ≠ []
  | [], r1, r2, hsub, _ => by simp at hsub
  | x :: rest, r1, r2, hsub, hc => by
    cases hsub with
    | cons _ hsub' =>
      have ih := conflict_sublist rest r1 r2 hsub' hc
      intro hnil
      rw [conflictWarnings] at hnil
      exact ih (List.append_eq_nil.mp hnil).2
    | cons₂ _ hsub' =>
      -- here the list head is r1 itself and r2 occurs in the tail,
      -- so the filter pass over the tail is non-empty
      have hr2 : r2 ∈ rest := hsub'.subset (List.mem_singleton_self r2)
      intro hnil
      rw [conflictWarnings] at hnil
      have hmem : r2 ∈ rest.filter fun q => rulesConflict x q :=
        List.mem_filter.mpr ⟨hr2, hc⟩
      have hm0 := (List.append_eq_nil.mp hnil).1
      rw [List.map_eq_nil_iff] at hm0
      rw [hm0] at hmem
      simp at hmem

/-- C6: any rule set containing two distinct rules with identical
`(sourcePattern, targetTag, targetFolder, updateField)` gets at least
one conflict warning from `validateRuleSet`, which still reports
`isValid = true` exactly when there are no errors; the conflict test
itself is symmetric and depends only on those four fields (not on
`valueType` or `priority`). -/
theorem claim_C6 :
    (∀ r1 r2 : Rule, rulesConflict r1 r2 = rulesConflict r2 r1) ∧
    (∀ r1 r2 : Rule, rulesConflict r1 r2 = true ↔
      (r1.sourcePattern = r2.sourcePattern ∧ r1.targetTag = r2.targetTag ∧
       r1.targetFolder = r2.targetFolder ∧ r1.updateField = r2.updateField)) ∧
    (∀ (rules : List Rule) (r1 r2 : Rule), List.Sublist [r1, r2] rules →
      r1.sourcePattern = r2.sourcePattern → r1.targetTag = r2.targetTag →
      r1.targetFolder = r2.targetFolder → r1.updateField = r2.updateField →
      (validateRuleSet rules).warnings ≠ [] ∧
      ((validateRuleSet rules).errors = [] → (validateRuleSet rules).isValid = true)) ∧
    (∀ rules : List Rule, (validateRuleSet rules).isValid = true ↔
      (validateRuleSet rules).errors = []) := by
  have hsymm : ∀ r1 r2 : Rule, rulesConflict r1 r2 = rulesConflict r2 r1 := by
    intro r1 r2
    rw [Bool.eq_iff_iff, rulesConflict_iff, rulesConflict_iff]
    constructor
    · rintro ⟨a, b, c, d⟩
      exact ⟨a.symm, b.symm, c.symm, d.symm⟩
    · rintro ⟨a, b, c, d⟩
      exact ⟨a.symm, b.symm, c.symm, d.symm⟩
  have hvalid : ∀ rules : List Rule, (validateRuleSet rules).isValid = true ↔
      (validateRuleSet rules).errors = [] := by
    intro rules
    simp only [validateRuleSet]
    split_ifs <;> simp
  refine ⟨hsymm, rulesConflict_iff, ?_, hvalid⟩
  intro rules r1 r2 hsub ha hb hc hd
  have hconf : rulesConflict r1 r2 = true :=
    (rulesConflict_iff r1 r2).mpr ⟨ha, hb, hc, hd⟩
  constructor
  · have := conflict_sublist rules r1 r2 hsub hconf
    simpa [validateRuleSet] using this
  · intro he
    exact (hvalid rules).mpr he

/-- Two rules identical in the four identity fields but with distinct
ids, value types and priorities. -/
def ruleConfA : Rule :=
  { id := "a", name := "A", sourcePattern := "Daily Notes/*",
    targetTag := some "#movie", updateField := "lastWatched",
    valueType := .date, priority := 1, enabled := true }

/-- Same identity fields as `ruleConfA`, different id, valueType and
priority. -/
def ruleConfB : Rule :=
  { id := "b", name := "B", sourcePattern := "Daily Notes/*",
    targetTag := some "#movie", updateField := "lastWatched",
    valueType := .append_link, priority := 5, enabled := false }

/-- C6 witness: a concrete conflicting pair yields a warning and a
still-valid rule set. -/
theorem claim_C6_witness :
    (validateRuleSet [ruleConfA, ruleConfB]).warnings ≠ [] ∧
    (validateRuleSet [ruleConfA, ruleConfB]).isValid = true := by
  have h := claim_C6.2.2.1 [ruleConfA, ruleConfB] ruleConfA ruleConfB
    (List.Sublist.refl _) rfl rfl rfl rfl
  exact ⟨h.1, h.2 (by decide)⟩

/-- Writing one key leaves every other key unchanged. -/
theorem fmGet_fmSet_ne : ∀ (fm : Frontmatter) (k k' : String) (v : FmValue),
    k' ≠ k → fmGet (fmSet fm k v) k' = fmGet fm k'
  | [], k, k', v, h => by
      have h2 : ¬(k = k') := fun e => h e.symm
      simp [fmSet, fmGet, h2]
  | (k0, v0) :: rest, k, k', v, h => by
      by_cases he : k0 = k
      · subst he
        have h2 : ¬(k0 = k') := fun e => h e.symm
        simp [fmSet, fmGet, h2]
      · by_cases h3 : k0 = k'
        · subst h3
          simp [fmSet, fmGet, he]
        · simp [fmSet, fmGet, he, h3, fmGet_fmSet_ne rest k k' v h]

/-- The derived history field name never collides with the field
itself. -/
theorem histFieldName_ne (field : String) : histFieldName field ≠ field := by
  unfold histFieldName
  split_ifs with h1 h2
  · have hf : field = "lastWatched" := by simpa using h1
    subst hf
    decide
  · have hf : field = "lastRead" := by simpa using h2
    subst hf
    decide
  · intro he
    have hlen := congrArg String.length he
    rw [String.length_append] at hlen
    have h7 : ("History" : String).length = 7 := rfl
    rw [h7] at hlen
    omega

/-- Under a well-shaped history slot (absent, falsy, or an array),
`addToHistory` never fails. -/
theorem addToHistory_ok (fm : Frontmatter) (field : String) (value : FmValue)
    (sourcePath timestamp : String)
    (hslot : jsTruthy (fmGet fm (histFieldName field)) = false ∨
             ∃ l, fmGet fm (histFieldName field) = FmValue.arr l) :
    ∃ fmh, addToHistory fm field value sourcePath timestamp = Except.ok fmh := by
  rcases hslot with hfal | ⟨l, hl⟩
  · simp only [addToHistory, hfal]
    split_ifs <;> first
      | exact ⟨_, rfl⟩
      | simp_all
  · simp only [addToHistory, hl, jsTruthy]
    split_ifs <;> first
      | exact ⟨_, rfl⟩
      | simp_all

/-- C4: a history entry is recorded if and only if history
preservation is active (the rule-level flag when present, else the
global option) and the candidate is neither `null` nor `undefined`;
the decision is independent of what the merge returned, so a candidate
rejected by the recency merge still records history. -/
theorem claim_C4 (jsDate : FmValue → Option Int) (fm : Frontmatter) (field : String)
    (value : FmValue) (rule : Rule) (sourcePath timestamp : String)
    (options : PluginOptions)
    (hslot : jsTruthy (fmGet fm (histFieldName field)) = false ∨
             ∃ l, fmGet fm (histFieldName field) = FmValue.arr l) :
    ∃ fm', updateTargetFileMetadata jsDate fm field value rule sourcePath timestamp options
        = Except.ok fm' ∧
      ((rule.preserveHistory.getD options.preserveHistory = true ∧
          value ≠ FmValue.null ∧ value ≠ FmValue.undef) →
        ∃ fmh, addToHistory fm field value sourcePath timestamp = Except.ok fmh ∧
          fmGet fm' (histFieldName field) = fmGet fmh (histFieldName field)) ∧
      (¬ (rule.preserveHistory.getD options.preserveHistory = true ∧
          value ≠ FmValue.null ∧ value ≠ FmValue.undef) →
        fmGet fm' (histFieldName field) = fmGet fm (histFieldName field)) := by
  obtain ⟨fmh, hfmh⟩ := addToHistory_ok fm field value sourcePath timestamp hslot
  have hmatch : (match rule.preserveHistory with
      | some b => b
      | none => options.preserveHistory) = rule.preserveHistory.getD options.preserveHistory := by
    cases rule.preserveHistory <;> rfl
  by_cases hcond : rule.preserveHistory.getD options.preserveHistory = true ∧
      value ≠ FmValue.null ∧ value ≠ FmValue.undef
  · refine ⟨if mergeValues jsDate (fmGet fm field) value rule.valueType options = FmValue.undef
        then fmh
        else fmSet fmh field (mergeValues jsDate (fmGet fm field) value rule.valueType options),
      ?_, ?_, ?_⟩
    · simp [updateTargetFileMetadata, hmatch, if_pos hcond, hfmh]
    · intro _
      refine ⟨fmh, hfmh, ?_⟩
      by_cases hnv : mergeValues jsDate (fmGet fm field) value rule.valueType options
          = FmValue.undef
      · simp [hnv]
      · simp [hnv, fmGet_fmSet_ne fmh field (histFieldName field) _ (histFieldName_ne field)]
    · intro hn
      exact absurd hcond hn
  · refine ⟨if mergeValues jsDate (fmGet fm field) value rule.valueType options = FmValue.undef
        then fm
        else fmSet fm field (mergeValues jsDate (fmGet fm field) value rule.valueType options),
      ?_, ?_, ?_⟩
    · simp [updateTargetFileMetadata, hmatch, if_neg hcond]
    · intro hc
      exact absurd hc hcond
    · intro _
      by_cases hnv : mergeValues jsDate (fmGet fm field) value rule.valueType options
          = FmValue.undef
      · simp [hnv]
      · simp [hnv, fmGet_fmSet_ne fm field (histFieldName field) _ (histFieldName_ne field)]

/-- The target frontmatter used by the C4 witness: an existing, more
recent date. -/
def fmDueW : Frontmatter := [("due", FmValue.str "2024-05-01")]

/-- The date rule used by the C4 witness (no rule-level history flag,
so the global option applies). -/
def ruleDateW : Rule :=
  { id := "d", name := "D", sourcePattern := "Daily Notes/*",
    updateField := "due", valueType := .date, priority := 1, enabled := true }

/-- C4 witness: with history preservation globally on and an older
candidate date that the recency merge rejects, the field keeps its
value while a history record is still appended under `dueHistory`. -/
theorem claim_C4_witness :
    (∃ fm', updateTargetFileMetadata jsDateIso fmDueW "due" (FmValue.str "2024-03-10")
        ruleDateW "Daily Notes/x.md" "TS" defaultOptions = Except.ok fm' ∧
      ((ruleDateW.preserveHistory.getD defaultOptions.preserveHistory = true ∧
          FmValue.str "2024-03-10" ≠ FmValue.null ∧ FmValue.str "2024-03-10" ≠ FmValue.undef) →
        ∃ fmh, addToHistory fmDueW "due" (FmValue.str "2024-03-10") "Daily Notes/x.md" "TS"
            = Except.ok fmh ∧
          fmGet fm' (histFieldName "due") = fmGet fmh (histFieldName "due")) ∧
      (¬ (ruleDateW.preserveHistory.getD defaultOptions.preserveHistory = true ∧
          FmValue.str "2024-03-10" ≠ FmValue.null ∧ FmValue.str "2024-03-10" ≠ FmValue.undef) →
        fmGet fm' (histFieldName "due") = fmGet fmDueW (histFieldName "due"))) ∧
    updateTargetFileMetadata jsDateIso fmDueW "due" (FmValue.str "2024-03-10")
        ruleDateW "Daily Notes/x.md" "TS" defaultOptions
      = Except.ok [("due", FmValue.str "2024-05-01"),
          ("dueHistory", FmValue.arr
            [FmValue.histRec "due" (FmValue.str "2024-03-10") "TS" "Daily Notes/x.md"])] :=
  ⟨claim_C4 jsDateIso fmDueW "due" (FmValue.str "2024-03-10") ruleDateW
      "Daily Notes/x.md" "TS" defaultOptions (Or.inl (by decide)),
   by decide⟩

/-- The date branch of `mergeValues`, spelled out. -/
theorem mergeValues_date_eq (jsDate : FmValue → Option Int) (cur cand : FmValue)
    (valueType : ValueType) (options : PluginOptions)
    (hvt : valueType = ValueType.date ∨ valueType = ValueType.date_and_title) :
    mergeValues jsDate cur cand valueType options =
      (if jsTruthy cur && jsTruthy cand then
        (if !(jsDate cur).isSome || !(jsDate cand).isSome || jsDateGt (jsDate cand) (jsDate cur)
          then (if (jsDate cand).isSome then cand
            else if (jsDate cur).isSome then cur else cur)
          else cur)
      else if jsTruthy cand && (jsDate cand).isSome then cand
      else cur) := by
  rcases hvt with rfl | rfl <;> rfl

/-- C1: the recency policy of the date merge.  Quantified over every
date-parse behavior `jsDate` on which falsy values are invalid dates
(as `new Date("")` is): when both sides parse, the candidate wins
exactly when strictly later; when one side parses, that side wins;
when neither parses, the current value is kept; with no current value,
the candidate is used iff it parses; the result of two valid dates is
the max, and re-merging a candidate not later than the current value
changes nothing. -/
theorem claim_C1 (jsDate : FmValue → Option Int)
    (hj : ∀ v, jsTruthy v = false → jsDate v = none)
    (valueType : ValueType)
    (hvt : valueType = ValueType.date ∨ valueType = ValueType.date_and_title)
    (options : PluginOptions) (cur cand : FmValue) :
    (∀ c n, jsDate cur = some c → jsDate cand = some n →
      mergeValues jsDate cur cand valueType options = (if c < n then cand else cur)) ∧
    (jsDate cur = none → ∀ n, jsDate cand = some n →
      mergeValues jsDate cur cand valueType options = cand) ∧
    (∀ c, jsDate cur = some c → jsDate cand = none →
      mergeValues jsDate cur cand valueType options = cur) ∧
    (jsDate cur = none → jsDate cand = none →
      mergeValues jsDate cur cand valueType options = cur) ∧
    (cur = FmValue.undef → jsDate cand = none →
      mergeValues jsDate cur cand valueType options = FmValue.undef) ∧
    (∀ c n, jsDate cur = some c → jsDate cand = some n →
      jsDate (mergeValues jsDate cur cand valueType options) = some (max c n)) ∧
    (∀ c n, jsDate cur = some c → jsDate cand = some n → n ≤ c →
      mergeValues jsDate cur cand valueType options = cur) := by
  have hme := mergeValues_date_eq jsDate cur cand valueType options hvt
  have htruthy : ∀ v : FmValue, ∀ x, jsDate v = some x → jsTruthy v = true := by
    intro v x hx
    cases h : jsTruthy v with
    | true => rfl
    | false => rw [hj v h] at hx; cases hx
  have hboth : ∀ c n, jsDate cur = some c → jsDate cand = some n →
      mergeValues jsDate cur cand valueType options = (if c < n then cand else cur) := by
    intro c n hc hn
    rw [hme, htruthy cur c hc, htruthy cand n hn, hc, hn]
    by_cases hlt : c < n
    · simp [jsDateGt, hlt]
    · simp [jsDateGt, hlt]
  refine ⟨hboth, ?_, ?_, ?_, ?_, ?_, ?_⟩
  · intro hc n hn
    rw [hme, htruthy cand n hn, hc, hn]
    cases h : jsTruthy cur <;> simp
  · intro c hc hn
    rw [hme, htruthy cur c hc, hc, hn]
    cases h : jsTruthy cand <;> simp [jsDateGt]
  · intro hc hn
    rw [hme, hc, hn]
    cases h1 : jsTruthy cur <;> cases h2 : jsTruthy cand <;> simp [jsDateGt]
  · intro hcur hn
    subst hcur
    rw [hme, hn]
    simp [jsTruthy]
  · intro c n hc hn
    rw [hboth c n hc hn]
    by_cases hlt : c < n
    · simp [hlt, hn, max_eq_right (le_of_lt hlt)]
    · simp [hlt, hc, max_eq_left (not_lt.mp hlt)]
  · intro c n hc hn hle
    rw [hboth c n hc hn, if_neg (not_lt.mpr hle)]

/-- C1 witness: with the concrete `YYYY-MM-DD` parser, merging an
older candidate into a newer current date keeps the current date. -/
theorem claim_C1_witness :
    mergeValues jsDateIso (FmValue.str "2024-05-01") (FmValue.str "2024-03-10")
      ValueType.date defaultOptions = FmValue.str "2024-05-01" := by
  have h := (claim_C1 jsDateIso jsDateIso_falsy ValueType.date (Or.inl rfl) defaultOptions
      (FmValue.str "2024-05-01") (FmValue.str "2024-03-10")).2.2.2.2.2.2
  exact h (Int.ofNat 753052) (Int.ofNat 752999) (by decide) (by decide) (by decide)

/-- A filter over a predicate that succeeds on every element is the
pure filter of the success values. -/
theorem filterExcept_ok {α : Type} (p : α → Except String Bool) :
    ∀ l : List α, (∀ a ∈ l, exIsOk (p a) = true) →
    filterExcept p l = Except.ok (l.filter fun a => exOkTrue (p a))
  | [], _ => rfl
  | a :: as, h => by
      obtain ⟨b, hb⟩ := (exIsOk_iff (p a)).mp (h a (List.mem_cons_self _ _))
      have ih := filterExcept_ok p as fun x hx => h x (List.mem_cons_of_mem _ hx)
      simp only [filterExcept, hb, ih]
      cases b <;> simp [List.filter_cons, exOkTrue, hb]

/-- Inserting a priority-`p` rule puts it in front of every other
priority-`p` rule already present (the skipped prefix has strictly
smaller priorities). -/
theorem filter_orderedInsert_eq (a : Rule) (p : Int) (hp : a.priority = p) :
    ∀ l : List Rule,
      (List.orderedInsert priorityLE a l).filter (fun x => decide (x.priority = p))
        = a :: l.filter (fun x => decide (x.priority = p))
  | [] => by simp [List.orderedInsert, hp]
  | b :: bs => by
      by_cases hle : priorityLE a b
      · simp [List.orderedInsert, hle, List.filter_cons, hp]
      · have hle' : ¬ (a.priority ≤ b.priority) := hle
        have hbne : ¬ (b.priority = p) := by
          rw [← hp]
          exact ne_of_lt (not_le.mp hle')
        simp [List.orderedInsert, hle, List.filter_cons, hbne,
          filter_orderedInsert_eq a p hp bs]

/-- Inserting a rule of a different priority leaves the priority-`p`
sublist unchanged. -/
theorem filter_orderedInsert_ne (a : Rule) (p : Int) (hp : ¬ a.priority = p) :
    ∀ l : List Rule,
      (List.orderedInsert priorityLE a l).filter (fun x => decide (x.priority = p))
        = l.filter (fun x => decide (x.priority = p))
  | [] => by simp [List.orderedInsert, hp]
  | b :: bs => by
      by_cases hle : priorityLE a b
      · simp [List.orderedInsert, hle, List.filter_cons, hp]
      · simp [List.orderedInsert, hle, List.filter_cons,
          filter_orderedInsert_ne a p hp bs]

/-- Stability of the priority sort: for every priority value, the
sublist of rules with that priority keeps its original order. -/
theorem filter_sortByPriority (p : Int) :
    ∀ l : List Rule,
      (sortByPriority l).filter (fun x => decide (x.priority = p))
        = l.filter (fun x => decide (x.priority = p))
  | [] => rfl
  | a :: as => by
      by_cases hp : a.priority = p
      · simp only [sortByPriority, List.insertionSort]
        rw [filter_orderedInsert_eq a p hp]
        rw [show List.insertionSort priorityLE as = sortByPriority as from rfl]
        rw [filter_sortByPriority p as]
        simp [List.filter_cons, hp]
      · simp only [sortByPriority, List.insertionSort]
        rw [filter_orderedInsert_ne a p hp]
        rw [show List.insertionSort priorityLE as = sortByPriority as from rfl]
        rw [filter_sortByPriority p as]
        simp [List.filter_cons, hp]

/-- The three source filter passes compose into the single combined
applicability predicate. -/
theorem filter_chain (sourceFile : SFile) (targetFile : TargetFile) (l : List Rule) :
    ((l.filter fun r => r.enabled).filter
        fun r => exOkTrue (matchesSourcePattern r sourceFile)).filter
        (fun r => exOkTrue (matchesTargetCriteria r targetFile))
      = l.filter (ruleApplies sourceFile targetFile) := by
  rw [List.filter_filter, List.filter_filter]
  apply List.filter_congr
  intro a _
  unfold ruleApplies
  cases a.enabled <;> cases exOkTrue (matchesSourcePattern a sourceFile) <;>
    cases exOkTrue (matchesTargetCriteria a targetFile) <;> rfl

/-- C3: under matchers that do not throw on the given pair,
`findApplicableRules` returns exactly the enabled rules whose source
pattern matches the source and whose target criterion matches the
target, as the stable ascending-priority sort of the filtered list: it
is sorted by priority, a rule is in the result iff it is enabled and
matches both sides (so no disabled rule is ever returned), and rules
of equal priority keep their original relative order. -/
theorem claim_C3 (sourceFile : SFile) (targetFile : TargetFile) (rules : List Rule)
    (h : ∀ r ∈ rules, exIsOk (matchesSourcePattern r sourceFile) = true ∧
                      exIsOk (matchesTargetCriteria r targetFile) = true) :
    findApplicableRules sourceFile targetFile rules
      = Except.ok (sortByPriority (rules.filter (ruleApplies sourceFile targetFile))) ∧
    List.Pairwise priorityLE (sortByPriority (rules.filter (ruleApplies sourceFile targetFile))) ∧
    (∀ r, r ∈ sortByPriority (rules.filter (ruleApplies sourceFile targetFile)) ↔
      (r ∈ rules ∧ r.enabled = true ∧
        matchesSourcePattern r sourceFile = Except.ok true ∧
        matchesTargetCriteria r targetFile = Except.ok true)) ∧
    (∀ p : Int,
      (sortByPriority (rules.filter (ruleApplies sourceFile targetFile))).filter
          (fun x => decide (x.priority = p))
        = (rules.filter (ruleApplies sourceFile targetFile)).filter
          (fun x => decide (x.priority = p))) := by
  refine ⟨?_, ?_, ?_, fun p => filter_sortByPriority p _⟩
  · have h1 : filterExcept (fun r => matchesSourcePattern r sourceFile)
        (rules.filter fun r => r.enabled)
        = Except.ok ((rules.filter fun r => r.enabled).filter
            fun r => exOkTrue (matchesSourcePattern r sourceFile)) :=
      filterExcept_ok _ _ fun a ha => (h a (List.mem_of_mem_filter ha)).1
    have h2 : filterExcept (fun r => matchesTargetCriteria r targetFile)
        ((rules.filter fun r => r.enabled).filter
          fun r => exOkTrue (matchesSourcePattern r sourceFile))
        = Except.ok (((rules.filter fun r => r.enabled).filter
            fun r => exOkTrue (matchesSourcePattern r sourceFile)).filter
            fun r => exOkTrue (matchesTargetCriteria r targetFile)) :=
      filterExcept_ok _ _
        fun a ha => (h a (List.mem_of_mem_filter (List.mem_of_mem_filter ha))).2
    simp only [findApplicableRules, h1, h2, filter_chain sourceFile targetFile rules]
  · exact List.sorted_insertionSort priorityLE _
  · intro r
    have hperm := List.perm_insertionSort priorityLE
      (rules.filter (ruleApplies sourceFile targetFile))
    rw [sortByPriority, hperm.mem_iff, List.mem_filter]
    simp [ruleApplies, Bool.and_eq_true, exOkTrue_iff, and_assoc]

/-- The source file of the C3 witness. -/
def srcW : SFile := ⟨"Daily Notes/2024-01-01.md", some "Daily Notes"⟩

/-- The target file of the C3 witness: tagged `movie` in frontmatter. -/
def tgtW : TargetFile := ⟨"Movies/Alien.md", some ⟨some ["movie"], none⟩⟩

/-- Witness rule: matches, priority 2. -/
def ruleW1 : Rule :=
  { id := "r1", name := "R1", sourcePattern := "Daily Notes/*",
    targetTag := some "#movie", updateField := "lastWatched",
    valueType := .date, priority := 2, enabled := true }

/-- Witness rule: matches, priority 1, listed after `ruleW1`. -/
def ruleW2 : Rule := { ruleW1 with id := "r2", name := "R2", priority := 1 }

/-- Witness rule: identical but disabled — must never be returned. -/
def ruleW3 : Rule := { ruleW1 with id := "r3", name := "R3", enabled := false }

/-- Witness rule: matches, same priority 1 as `ruleW2` but listed
after it — stability keeps it behind `ruleW2`. -/
def ruleW4 : Rule :=
  { ruleW1 with id := "r4", name := "R4", priority := 1, updateField := "seen" }

/-- C3 witness: on a concrete rule list the result is the stable
ascending sort of the applicable rules — the disabled rule is dropped
and the two priority-1 rules keep their original order ahead of the
priority-2 rule. -/
theorem claim_C3_witness :
    findApplicableRules srcW tgtW [ruleW1, ruleW2, ruleW3, ruleW4]
      = Except.ok (sortByPriority
          ([ruleW1, ruleW2, ruleW3, ruleW4].filter (ruleApplies srcW tgtW))) ∧
    findApplicableRules srcW tgtW [ruleW1, ruleW2, ruleW3, ruleW4]
      = Except.ok [ruleW2, ruleW4, ruleW1] :=
  ⟨(claim_C3 srcW tgtW [ruleW1, ruleW2, ruleW3, ruleW4] (by decide)).1, by decide⟩

end BacklinkPlugin
